import Mathlib

/-!
Verification development for the ticket-bot repository (main.py, ticket_bot.py).

Strings are modelled as `List Char`.  Python's substring test (`in`), `split`,
`strip` and `int` are embedded as executable functions below; the segment
`topic.split(sep)[1]` equals "the part after the first occurrence of `sep`,
truncated at its next occurrence", which is how it is modelled here.
-/

namespace TicketBot

/-- Digit character for a value below ten, as produced by Python's str(). -/
def digitCh (d : Nat) : Char := Char.ofNat (48 + d)

/-- Fuel-driven decimal rendering helper (fuel keeps the recursion structural). -/
def natDigitsAux : Nat → Nat → List Char
  | 0, _ => []
  | fuel + 1, n =>
      if n < 10 then [digitCh n]
      else natDigitsAux fuel (n / 10) ++ [digitCh (n % 10)]

/-- Decimal rendering of a natural number, modelling Python's str(n) / f-string
interpolation of a nonnegative integer. -/
def natDigits (n : Nat) : List Char := natDigitsAux (n + 1) n

/-- ASCII decimal digit test. -/
def isDigitCh (c : Char) : Bool := (48 ≤ c.toNat) && (c.toNat ≤ 57)

/-- Python whitespace test used by str.strip (restricted to the common cases). -/
def pyIsSpace (c : Char) : Bool := (c == ' ') || (c == '\t') || (c == '\n') || (c == '\r')

/-- Numeric value of a decimal digit string. -/
def pyIntVal (s : List Char) : Nat := s.foldl (fun a c => a * 10 + (c.toNat - 48)) 0

/-- Python's int() restricted to nonnegative decimal digit strings; any other
input raises in Python, modelled as `none`. -/
def pyInt (s : List Char) : Option Nat :=
  if s.isEmpty then none
  else if s.all isDigitCh then some (pyIntVal s) else none

/-- Python's str.strip(): drop whitespace from both ends. -/
def pyStrip (s : List Char) : List Char :=
  ((s.dropWhile pyIsSpace).reverse.dropWhile pyIsSpace).reverse

/-- Index of the first occurrence of `sep` in a list, if any; the backbone of
Python's `in`, `split` and index-based slicing on strings. -/
def firstOcc (sep : List Char) : List Char → Option Nat
  | [] => none
  | c :: rest =>
      if sep.isPrefixOf (c :: rest) then some 0
      else (firstOcc sep rest).map (· + 1)

/-- Python's substring containment test `sep in xs` (for nonempty `sep`). -/
def containsSub (sep xs : List Char) : Bool := (firstOcc sep xs).isSome

/-- The part of `xs` before the first occurrence of `sep` (all of `xs` when
absent); this is `xs.split(sep)[0]`. -/
def beforeFirst (sep xs : List Char) : List Char :=
  match firstOcc sep xs with
  | none => xs
  | some i => xs.take i

/-- The part of `xs` after the first occurrence of `sep`, when present. -/
def afterFirst (sep xs : List Char) : Option (List Char) :=
  (firstOcc sep xs).map (fun i => xs.drop (i + sep.length))

/- ### Basic lemmas about the digit rendering -/

theorem natDigitsAux_fuel_irrel :
    ∀ fuel fuel' n, n < fuel → n < fuel' → natDigitsAux fuel n = natDigitsAux fuel' n := by
  intro fuel
  induction fuel with
  | zero => intro fuel' n h; omega
  | succ f ih =>
      intro fuel' n h h'
      cases fuel' with
      | zero => omega
      | succ f' =>
          simp only [natDigitsAux]
          by_cases h10 : n < 10
          · simp [h10]
          · have hdiv : n / 10 < n := Nat.div_lt_self (by omega) (by omega)
            simp only [h10, if_false]
            rw [ih f' (n / 10) (by omega) (by omega)]

theorem natDigits_lt10 (n : Nat) (h : n < 10) : natDigits n = [digitCh n] := by
  simp [natDigits, natDigitsAux, h]

theorem natDigits_ge10 (n : Nat) (h : ¬ n < 10) :
    natDigits n = natDigits (n / 10) ++ [digitCh (n % 10)] := by
  have hdiv : n / 10 < n := Nat.div_lt_self (by omega) (by omega)
  show natDigitsAux (n + 1) n = natDigitsAux (n / 10 + 1) (n / 10) ++ [digitCh (n % 10)]
  rw [natDigitsAux_fuel_irrel (n / 10 + 1) n (n / 10) (by omega) (by omega)]
  simp [natDigitsAux, h]

theorem natDigits_ne_nil (n : Nat) : natDigits n ≠ [] := by
  by_cases h : n < 10
  · rw [natDigits_lt10 n h]; simp
  · rw [natDigits_ge10 n h]; simp

theorem digitCh_isDigit : ∀ d, d < 10 → isDigitCh (digitCh d) = true := by decide

theorem digitCh_toNat : ∀ d, d < 10 → (digitCh d).toNat = 48 + d := by decide

theorem natDigits_all_digit (n : Nat) : ∀ c ∈ natDigits n, isDigitCh c = true := by
  induction n using Nat.strong_induction_on with
  | _ n ih =>
      by_cases h : n < 10
      · rw [natDigits_lt10 n h]
        intro c hc
        simp only [List.mem_singleton] at hc
        subst hc
        exact digitCh_isDigit n h
      · rw [natDigits_ge10 n h]
        intro c hc
        rcases List.mem_append.mp hc with hc | hc
        · exact ih (n / 10) (Nat.div_lt_self (by omega) (by omega)) c hc
        · simp only [List.mem_singleton] at hc
          subst hc
          exact digitCh_isDigit (n % 10) (Nat.mod_lt n (by omega))

theorem pyIntVal_append_digit (s : List Char) (c : Char) :
    pyIntVal (s ++ [c]) = pyIntVal s * 10 + (c.toNat - 48) := by
  simp [pyIntVal, List.foldl_append]

theorem pyIntVal_natDigits (n : Nat) : pyIntVal (natDigits n) = n := by
  induction n using Nat.strong_induction_on with
  | _ n ih =>
      by_cases h : n < 10
      · rw [natDigits_lt10 n h]
        simp [pyIntVal, digitCh_toNat n h]
      · rw [natDigits_ge10 n h, pyIntVal_append_digit,
          ih (n / 10) (Nat.div_lt_self (by omega) (by omega)),
          digitCh_toNat (n % 10) (Nat.mod_lt n (by omega))]
        omega

theorem pyInt_natDigits (n : Nat) : pyInt (natDigits n) = some n := by
  have h1 : (natDigits n).isEmpty = false := by
    cases hd : natDigits n with
    | nil => exact absurd hd (natDigits_ne_nil n)
    | cons a l => simp
  have h2 : (natDigits n).all isDigitCh = true :=
    List.all_eq_true.mpr (natDigits_all_digit n)
  simp [pyInt, h1, h2, pyIntVal_natDigits]

theorem natDigits_inj {a b : Nat} (h : natDigits a = natDigits b) : a = b := by
  have := congrArg pyIntVal h
  rwa [pyIntVal_natDigits, pyIntVal_natDigits] at this

theorem isDigitCh_not_space {c : Char} (h : isDigitCh c = true) : pyIsSpace c = false := by
  cases hs : pyIsSpace c with
  | false => rfl
  | true =>
      exfalso
      simp only [pyIsSpace, Bool.or_eq_true, beq_iff_eq] at hs
      rcases hs with ((hs | hs) | hs) | hs <;> (subst hs; exact absurd h (by decide))

theorem pyStrip_digits (l : List Char) (hne : l ≠ []) (hall : ∀ c ∈ l, isDigitCh c = true) :
    pyStrip l = l := by
  obtain ⟨a, l', rfl⟩ := List.exists_cons_of_ne_nil hne
  have hhead : pyIsSpace a = false := isDigitCh_not_space (hall a (by simp))
  have h1 : (a :: l').dropWhile pyIsSpace = a :: l' := by
    simp [List.dropWhile, hhead]
  have hlast : ∀ c ∈ (a :: l').reverse, isDigitCh c = true := by
    intro c hc; exact hall c (List.mem_reverse.mp hc)
  have h2 : (a :: l').reverse.dropWhile pyIsSpace = (a :: l').reverse := by
    cases hr : (a :: l').reverse with
    | nil => simp
    | cons b r =>
        have hb : isDigitCh b = true := by
          apply hlast; rw [hr]; simp
        simp [List.dropWhile, isDigitCh_not_space hb]
  rw [pyStrip, h1, h2, List.reverse_reverse]

/- ### Lemmas about first occurrences -/

theorem isPrefixOf_congr_take (sep l₁ l₂ : List Char)
    (h : l₁.take sep.length = l₂.take sep.length) :
    sep.isPrefixOf l₁ = sep.isPrefixOf l₂ := by
  rw [Bool.eq_iff_iff, List.isPrefixOf_iff_prefix, List.isPrefixOf_iff_prefix,
    List.prefix_iff_eq_take, List.prefix_iff_eq_take, h]

theorem take_append_take (u v : List Char) (t : Nat) :
    (u ++ v.take t).take t = (u ++ v).take t := by
  rw [List.take_append_eq_append_take, List.take_append_eq_append_take, List.take_take,
    Nat.min_eq_left (Nat.sub_le t u.length)]

theorem firstOcc_append (sep pre rest : List Char)
    (h : firstOcc sep (pre ++ rest.take (sep.length - 1)) = none) :
    firstOcc sep (pre ++ rest) = (firstOcc sep rest).map (· + pre.length) := by
  induction pre with
  | nil =>
      simp only [List.nil_append, List.length_nil]
      cases firstOcc sep rest <;> simp
  | cons a pre' ih =>
      rw [List.cons_append] at h
      by_cases hP : sep.isPrefixOf (a :: (pre' ++ rest.take (sep.length - 1))) = true
      · simp [firstOcc, hP] at h
      · have hP := Bool.eq_false_iff.mpr (fun hc => hP hc)
        have hsep : sep ≠ [] := by
          intro hc; subst hc; simp [List.isPrefixOf] at hP
        obtain ⟨s0, stl, rfl⟩ := List.exists_cons_of_ne_nil hsep
        have htake : (a :: (pre' ++ rest.take ((s0 :: stl).length - 1))).take (s0 :: stl).length
            = (a :: (pre' ++ rest)).take (s0 :: stl).length := by
          simp only [List.length_cons, List.take_succ_cons, Nat.add_sub_cancel]
          rw [take_append_take]
        have hP' : (s0 :: stl).isPrefixOf (a :: (pre' ++ rest)) = false := by
          rw [← isPrefixOf_congr_take (s0 :: stl) _ _ htake]
          exact hP
        have hrec : firstOcc (s0 :: stl) (pre' ++ rest.take ((s0 :: stl).length - 1)) = none := by
          simp only [firstOcc, hP, Bool.false_eq_true, if_false, Option.map_eq_none'] at h
          exact h
        rw [List.cons_append]
        simp only [firstOcc, hP', Bool.false_eq_true, if_false, ih hrec]
        cases firstOcc (s0 :: stl) rest with
        | none => simp
        | some v =>
            simp only [Option.map_map, Option.map_some', Function.comp_apply,
              List.length_cons, Option.some.injEq]
            omega

theorem firstOcc_cons_of_prefix {sep : List Char} (x : Char) (rest : List Char)
    (h : sep.isPrefixOf (x :: rest) = true) : firstOcc sep (x :: rest) = some 0 := by
  simp [firstOcc, h]

theorem firstOcc_eq_none_of_head_notMem (c : Char) (sep' xs : List Char) (h : c ∉ xs) :
    firstOcc (c :: sep') xs = none := by
  induction xs with
  | nil => rfl
  | cons x rest ih =>
      have hcx : (c == x) = false := by
        simp only [beq_eq_false_iff_ne, ne_eq]
        intro hc; subst hc; exact h (by simp)
      have hpre : (c :: sep').isPrefixOf (x :: rest) = false := by
        simp [List.isPrefixOf, hcx]
      simp [firstOcc, hpre, ih (fun hc => h (by simp [hc]))]

theorem containsSub_of_infix (a sep b : List Char) (hsep : sep ≠ []) :
    containsSub sep (a ++ (sep ++ b)) = true := by
  induction a with
  | nil =>
      obtain ⟨s0, stl, rfl⟩ := List.exists_cons_of_ne_nil hsep
      rw [List.nil_append]
      have hp : (s0 :: stl).isPrefixOf ((s0 :: stl) ++ b) = true :=
        List.isPrefixOf_iff_prefix.mpr (List.prefix_append _ b)
      rw [List.cons_append] at hp ⊢
      simp [containsSub, firstOcc_cons_of_prefix _ _ hp]
  | cons x a' ih =>
      rw [List.cons_append]
      by_cases hP : sep.isPrefixOf (x :: (a' ++ (sep ++ b))) = true
      · simp [containsSub, firstOcc, hP]
      · have hP := Bool.eq_false_iff.mpr (fun hc => hP hc)
        simp only [containsSub, firstOcc, hP, Bool.false_eq_true, if_false,
          Option.isSome_map']
        simpa [containsSub] using ih

/- ### Topic encoding and owner extraction (C3 machinery)

Creation (main.py:197, ticket_bot.py:172) sets
`topic = f"Ticket for {member} (ID: {member.id}) | Issue: {issue_type}"`.
Close (main.py:304-311, ticket_bot.py:288-295) recovers the owner id with
`int(topic.split("ID:")[1].split(")")[0].strip())` guarded by `"ID:" in topic`,
with any parse failure degrading to None. -/

def idMarker : List Char := "ID:".data

def rparenS : List Char := ")".data

/-- The encoded channel topic written at ticket creation. -/
def encodeTopic (memberName : List Char) (uid : Nat) (issue : List Char) : List Char :=
  "Ticket for ".data ++ memberName ++ " (ID: ".data ++ natDigits uid ++
    ") | Issue: ".data ++ issue

/-- Owner-id extraction from a channel topic (None when the topic is unset, the
`ID:` marker is absent, or int() fails); it never raises. -/
def pyExtractOwnerId (topic : Option (List Char)) : Option Nat :=
  match topic with
  | none => none
  | some t =>
      match afterFirst idMarker t with
      | none => none
      | some rest => pyInt (pyStrip (beforeFirst rparenS (beforeFirst idMarker rest)))

/-- The rendered member name does not itself contain the `ID:` marker (nor start
one together with the following ` (ID` characters of the fixed pattern). -/
def nameOk (memberName : List Char) : Prop :=
  firstOcc idMarker (("Ticket for ".data ++ memberName ++ " (".data) ++ "ID".data) = none

instance (memberName : List Char) : Decidable (nameOk memberName) := by
  unfold nameOk; infer_instance

theorem notMem_of_all_digit {c : Char} {l : List Char}
    (hall : ∀ x ∈ l, isDigitCh x = true) (hc : isDigitCh c = false) : c ∉ l := by
  intro hmem
  rw [hall c hmem] at hc
  exact Bool.true_eq_false.mp hc

theorem firstOcc_append_of_prefix (sep pre B : List Char) (hsep : sep ≠ [])
    (hnone : firstOcc sep (pre ++ (sep ++ B).take (sep.length - 1)) = none) :
    firstOcc sep (pre ++ (sep ++ B)) = some (0 + pre.length) := by
  have happ := firstOcc_append sep pre (sep ++ B) hnone
  obtain ⟨s0, stl, rfl⟩ := List.exists_cons_of_ne_nil hsep
  have hp : (s0 :: stl).isPrefixOf ((s0 :: stl) ++ B) = true :=
    List.isPrefixOf_iff_prefix.mpr (List.prefix_append _ _)
  rw [List.cons_append] at hp
  have hp0 : firstOcc (s0 :: stl) ((s0 :: stl) ++ B) = some 0 := by
    rw [List.cons_append]
    exact firstOcc_cons_of_prefix _ _ hp
  rw [happ, hp0, Option.map_some']

theorem afterFirst_append_of_prefix (sep pre B : List Char) (hsep : sep ≠ [])
    (hnone : firstOcc sep (pre ++ (sep ++ B).take (sep.length - 1)) = none) :
    afterFirst sep (pre ++ (sep ++ B)) = some B := by
  rw [afterFirst, firstOcc_append_of_prefix sep pre B hsep hnone, Option.map_some']
  congr 1
  rw [show 0 + pre.length + sep.length = (pre ++ sep).length by
    simp [List.length_append], ← List.append_assoc, List.drop_left]

theorem beforeFirst_append_of_prefix (sep pre B : List Char) (hsep : sep ≠ [])
    (hnone : firstOcc sep (pre ++ (sep ++ B).take (sep.length - 1)) = none) :
    beforeFirst sep (pre ++ (sep ++ B)) = pre := by
  rw [beforeFirst, firstOcc_append_of_prefix sep pre B hsep hnone]
  rw [show (0 + pre.length) = pre.length by omega]
  exact List.take_left _ _

theorem beforeFirst_append_exists (sep A T : List Char)
    (hnone : firstOcc sep (A ++ T.take (sep.length - 1)) = none) :
    ∃ U, beforeFirst sep (A ++ T) = A ++ U := by
  have happ := firstOcc_append sep A T hnone
  cases hT : firstOcc sep T with
  | none =>
      refine ⟨T, ?_⟩
      rw [beforeFirst, happ, hT, Option.map_none']
  | some j =>
      refine ⟨T.take j, ?_⟩
      rw [beforeFirst, happ, hT, Option.map_some']
      show (A ++ T).take (j + A.length) = A ++ T.take j
      rw [List.take_append_eq_append_take,
        List.take_of_length_le (by omega : A.length ≤ j + A.length),
        show j + A.length - A.length = j by omega]

theorem extract_encode (name issue : List Char) (uid : Nat) (h : nameOk name) :
    pyExtractOwnerId (some (encodeTopic name uid issue)) = some uid := by
  have hdig : ∀ x ∈ natDigits uid, isDigitCh x = true := natDigits_all_digit uid
  -- decompose the encoded topic around the `ID:` marker
  have hEnc : encodeTopic name uid issue
      = ("Ticket for ".data ++ name ++ " (".data)
        ++ (idMarker ++ ((' ' :: (natDigits uid ++ [')']))
            ++ (" | Issue: ".data ++ issue))) := by
    rw [encodeTopic]
    have e1 : " (ID: ".data = " (".data ++ ("ID:".data ++ [' ']) := by decide
    have e2 : ") | Issue: ".data = [')'] ++ " | Issue: ".data := by decide
    rw [e1, e2]
    simp [idMarker, List.append_assoc]
  have h4 : afterFirst idMarker (encodeTopic name uid issue)
      = some ((' ' :: (natDigits uid ++ [')'])) ++ (" | Issue: ".data ++ issue)) := by
    rw [hEnc]
    apply afterFirst_append_of_prefix _ _ _ (by decide)
    exact h
  -- inside the extracted suffix, the first `ID:` (if any) lies past the `)`
  have hI : ('I' : Char) ∉ (' ' :: (natDigits uid ++ [')']))
      ++ (" | Issue: ".data ++ issue).take (idMarker.length - 1) := by
    have htk2 : (" | Issue: ".data ++ issue).take (idMarker.length - 1) = [' ', '|'] := rfl
    rw [htk2]
    intro hmem
    rcases List.mem_append.mp hmem with hmem | hmem
    · rcases List.mem_cons.mp hmem with hmem | hmem
      · simp at hmem
      · rcases List.mem_append.mp hmem with hmem | hmem
        · exact notMem_of_all_digit hdig (by decide) hmem
        · simp at hmem
    · simp at hmem
  have hnone1 : firstOcc idMarker ((' ' :: (natDigits uid ++ [')']))
      ++ (" | Issue: ".data ++ issue).take (idMarker.length - 1)) = none := by
    have hm : idMarker = 'I' :: "D:".data := rfl
    rw [hm]
    exact firstOcc_eq_none_of_head_notMem _ _ _ hI
  obtain ⟨U, hU⟩ := beforeFirst_append_exists idMarker
    (' ' :: (natDigits uid ++ [')'])) (" | Issue: ".data ++ issue) hnone1
  -- taking the part before the `)` isolates the digit string
  have hre : (' ' :: (natDigits uid ++ [')'])) ++ U
      = (' ' :: natDigits uid) ++ (rparenS ++ U) := by
    simp [rparenS, List.append_assoc]
  have hnone2 : firstOcc rparenS ((' ' :: natDigits uid)
      ++ (rparenS ++ U).take (rparenS.length - 1)) = none := by
    have hz : (rparenS ++ U).take (rparenS.length - 1) = [] := rfl
    rw [hz, List.append_nil]
    have hm : rparenS = ')' :: [] := rfl
    rw [hm]
    apply firstOcc_eq_none_of_head_notMem
    intro hmem
    rcases List.mem_cons.mp hmem with hmem | hmem
    · simp at hmem
    · exact notMem_of_all_digit hdig (by decide) hmem
  have h5 : beforeFirst rparenS (beforeFirst idMarker
      ((' ' :: (natDigits uid ++ [')'])) ++ (" | Issue: ".data ++ issue)))
      = ' ' :: natDigits uid := by
    rw [hU, hre]
    exact beforeFirst_append_of_prefix _ _ _ (by decide) hnone2
  have h6 : pyStrip (' ' :: natDigits uid) = natDigits uid := by
    have hsp : pyIsSpace ' ' = true := rfl
    have hdw : (' ' :: natDigits uid).dropWhile pyIsSpace
        = (natDigits uid).dropWhile pyIsSpace := by
      simp [List.dropWhile, hsp]
    rw [pyStrip, hdw]
    have := pyStrip_digits (natDigits uid) (natDigits_ne_nil uid) hdig
    rw [pyStrip] at this
    exact this
  simp only [pyExtractOwnerId, h4]
  rw [h5, h6, pyInt_natDigits]
/-- C3: for every userId and issueType (and any member-name rendering that does
not itself contain the `ID:` marker), encoding them into the fixed-pattern topic
and then extracting the owner id returns the original userId; and on any topic
missing the `ID:` marker the extraction returns none (it never raises: it is a
total function into Option). -/
theorem c3_topic_roundtrip :
    (∀ (name issue : List Char) (uid : Nat), nameOk name →
        pyExtractOwnerId (some (encodeTopic name uid issue)) = some uid)
  ∧ (∀ t : List Char, containsSub idMarker t = false → pyExtractOwnerId (some t) = none) := by
  constructor
  · exact extract_encode
  · intro t h
    have hnone : firstOcc idMarker t = none := by
      rw [containsSub] at h
      exact Option.not_isSome_iff_eq_none.mp (by simp [h])
    simp [pyExtractOwnerId, afterFirst, hnone]

/-- C3 witness: the round trip at a concrete member/issue, and a concrete
marker-free topic extracting to none. -/
theorem c3_topic_roundtrip_witness :
    pyExtractOwnerId (some (encodeTopic ("bob").data 111 ("Hosting").data)) = some 111
  ∧ pyExtractOwnerId (some ("general chat").data) = none :=
  ⟨c3_topic_roundtrip.1 ("bob").data ("Hosting").data 111 (by decide),
   c3_topic_roundtrip.2 ("general chat").data (by decide)⟩

/- ### Transcript rendering (C5, C6, C7)

From the close handlers (main.py:288-301, ticket_bot.py:260-272): one line per
message, `line = f"[{ts}] {author}: {content} {attachments}"` with
`author = f"{msg.author} ({msg.author.id})"` and
`attachments = " ".join(a.url for a in msg.attachments) if msg.attachments else ""`,
then `transcript_text = "\n".join(lines) if lines else "No messages found."`.
Timestamps are carried as the already-rendered strftime string (strftime is
stdlib, external to this repository). -/

structure Msg where
  tsStr : List Char
  authorStr : List Char
  authorId : Nat
  content : List Char
  attachUrls : List (List Char)
  deriving DecidableEq

/-- Python's sep.join(list). -/
def joinSep (c : Char) : List (List Char) → List Char
  | [] => []
  | [x] => x
  | x :: xs => x ++ c :: joinSep c xs

/-- One transcript line for one message, exactly as the f-string builds it. -/
def formatLine (m : Msg) : List Char :=
  "[".data ++ m.tsStr ++ "] ".data ++ m.authorStr ++ " (".data ++ natDigits m.authorId
    ++ "): ".data ++ m.content ++ " ".data
    ++ (if m.attachUrls.isEmpty then [] else joinSep ' ' m.attachUrls)

/-- The `lines` accumulator loop: append one rendered line per message. -/
def renderLines (msgs : List Msg) : List (List Char) :=
  msgs.foldl (fun acc m => acc ++ [formatLine m]) []

/-- The empty-history sentinel the code actually uses. -/
def noMsgSentinel : List Char := "No messages found.".data

/-- The final transcript text. -/
def transcriptText (msgs : List Msg) : List Char :=
  if (renderLines msgs).isEmpty then noMsgSentinel else joinSep '\n' (renderLines msgs)

theorem foldl_append_map (f : Msg → List Char) :
    ∀ (l : List Msg) (acc : List (List Char)),
      l.foldl (fun a m => a ++ [f m]) acc = acc ++ l.map f := by
  intro l
  induction l with
  | nil => intro acc; simp
  | cons m tl ih => intro acc; simp [List.foldl_cons, ih, List.append_assoc]

theorem renderLines_eq_map (msgs : List Msg) : renderLines msgs = msgs.map formatLine := by
  simpa using foldl_append_map formatLine msgs []

theorem formatLine_ne_nil (m : Msg) : formatLine m ≠ [] := by
  have h : ("[").data ≠ [] := by decide
  rw [formatLine]
  simp only [List.append_assoc]
  exact List.append_ne_nil_of_left_ne_nil h _

theorem joinSep_cons_ne_nil (c : Char) (a : List Char) (ls : List (List Char))
    (ha : a ≠ []) : joinSep c (a :: ls) ≠ [] := by
  cases ls with
  | nil => simpa [joinSep] using ha
  | cons b ls' =>
      have hk : joinSep c (a :: b :: ls') = a ++ c :: joinSep c (b :: ls') := rfl
      rw [hk]
      exact List.append_ne_nil_of_left_ne_nil ha _

/-- C5: for every non-empty message sequence, the renderer produces exactly one
line per message, in the same oldest-first order (line i renders message i), and
the resulting transcript text is never empty. -/
theorem c5_transcript_totality (msgs : List Msg) (h : msgs ≠ []) :
    (renderLines msgs).length = msgs.length ∧
    (∀ i : Nat, (renderLines msgs).get? i = (msgs.get? i).map formatLine) ∧
    transcriptText msgs ≠ [] := by
  have hmap := renderLines_eq_map msgs
  refine ⟨by rw [hmap]; simp, ?_, ?_⟩
  · intro i
    rw [hmap, List.get?_map]
  · obtain ⟨m, tl, rfl⟩ := List.exists_cons_of_ne_nil h
    have hr : renderLines (m :: tl) = formatLine m :: tl.map formatLine := by
      rw [hmap]; simp
    rw [transcriptText, hr]
    simp only [List.isEmpty_cons, Bool.false_eq_true, if_false]
    exact joinSep_cons_ne_nil _ _ _ (formatLine_ne_nil m)

/-- C5 witness: the guarantees at a concrete one-message history. -/
theorem c5_transcript_totality_witness :
    (renderLines [Msg.mk ("2024-01-01 00:00:00").data ("alice").data 111 ("hi").data []]).length
      = [Msg.mk ("2024-01-01 00:00:00").data ("alice").data 111 ("hi").data []].length ∧
    (∀ i : Nat,
      (renderLines [Msg.mk ("2024-01-01 00:00:00").data ("alice").data 111 ("hi").data []]).get? i
        = ([Msg.mk ("2024-01-01 00:00:00").data ("alice").data 111 ("hi").data []].get? i).map
            formatLine) ∧
    transcriptText [Msg.mk ("2024-01-01 00:00:00").data ("alice").data 111 ("hi").data []] ≠ [] :=
  c5_transcript_totality _ (by simp)

/-- C6 counterexample: on an empty history the code's sentinel is
"No messages found.", not the claimed "No messages.". -/
theorem c6_sentinel_cex : transcriptText [] ≠ "No messages.".data := by decide

/-- C6 amended: rendering an empty message sequence returns the fixed sentinel
string "No messages found." — never the empty string — so downstream delivery
never receives an empty payload. -/
theorem c6_sentinel_amended :
    transcriptText [] = "No messages found.".data ∧ transcriptText [] ≠ [] := by decide

/-- The line format the claim describes: no text after the content when a
message has no attachments; space-joined URLs appended (after a separating
space) otherwise.  Written from the claim's wording, to compare with
`formatLine` as translated from the code. -/
def claimLine (m : Msg) : List Char :=
  "[".data ++ m.tsStr ++ "] ".data ++ m.authorStr ++ " (".data ++ natDigits m.authorId
    ++ "): ".data ++ m.content
    ++ (if m.attachUrls.isEmpty then [] else " ".data ++ joinSep ' ' m.attachUrls)

/-- C7 counterexample: for a message without attachments the code still appends
a trailing separator space, so the rendered line is not the claimed format. -/
theorem c7_line_format_cex :
    formatLine (Msg.mk ("t").data ("a").data 1 ("hi").data [])
      ≠ claimLine (Msg.mk ("t").data ("a").data 1 ("hi").data []) := by decide

/-- C7 amended: with attachments the line is exactly the claimed
"[timestamp] author (authorId): content url..." shape; with no attachments the
line is the claimed shape plus one trailing separator space (the code always
appends the space before the — possibly empty — attachment text). -/
theorem c7_line_format_amended (m : Msg) :
    (m.attachUrls ≠ [] → formatLine m = claimLine m)
    ∧ (m.attachUrls = [] → formatLine m = claimLine m ++ [' ']) := by
  constructor
  · intro hne
    have hie : m.attachUrls.isEmpty = false := by
      cases hm : m.attachUrls with
      | nil => exact absurd hm hne
      | cons a l => simp
    rw [formatLine, claimLine, hie]
    simp [List.append_assoc]
  · intro he
    have hie : m.attachUrls.isEmpty = true := by rw [he]; rfl
    rw [formatLine, claimLine, hie]
    simp [List.append_assoc]

/-- C7 amended witness: both cases at concrete messages. -/
theorem c7_line_format_amended_witness :
    formatLine (Msg.mk ("t").data ("a").data 1 ("hi").data [])
      = claimLine (Msg.mk ("t").data ("a").data 1 ("hi").data []) ++ [' ']
    ∧ formatLine (Msg.mk ("t").data ("a").data 1 ("hi").data [("u").data])
      = claimLine (Msg.mk ("t").data ("a").data 1 ("hi").data [("u").data]) :=
  ⟨(c7_line_format_amended _).2 rfl, (c7_line_format_amended _).1 (by decide)⟩

/- ### Channels, ticket-channel tests and the auto-close sweep (C8, C9) -/

/-- A guild text channel: its name and optional topic string. -/
structure Channel where
  name : List Char
  topic : Option (List Char)
  deriving DecidableEq

/-- `channel.name.startswith("ticket-")`. -/
def hasTicketPre (name : List Char) : Bool := ("ticket-").data.isPrefixOf name

/-- `ch.topic and needle in ch.topic` (False on an unset topic). -/
def topicContains (topic : Option (List Char)) (needle : List Char) : Bool :=
  match topic with
  | none => false
  | some t => containsSub needle t

/-- The ticket-channel test of the close handlers (main.py:264,
ticket_bot.py:239): name prefix OR topic containing "Ticket for". -/
def isTicketChannel (ch : Channel) : Bool :=
  hasTicketPre ch.name || topicContains ch.topic ("Ticket for").data

/-- The channels the auto-close sweep examines (main.py:356-357): the per-guild
channel list filtered by the name prefix alone. -/
def sweepTargets (chs : List Channel) : List Channel :=
  chs.filter (fun ch => hasTicketPre ch.name)

/-- The sweep's per-channel close decision (main.py:351-364): autoclose_hours
positive, ticket-name prefix, and the single most recent message (when one
exists) strictly older than `utcnow() - timedelta(hours=hours)`; timestamps are
modelled in seconds. -/
def autoCloseDecision (hours : Nat) (now : Int) (ch : Channel)
    (lastMsgTs : Option Int) : Bool :=
  if 0 < hours then
    if hasTicketPre ch.name then
      match lastMsgTs with
      | some ts => decide (ts < now - (hours : Int) * 3600)
      | none => false
    else false
  else false

/-- C8: with autoCloseHours = H > 0, a ticket channel whose latest message
timestamp is strictly earlier than now − H hours (at now − H − ε) is selected
for closing by the sweep, and one at now − H + ε is not. -/
theorem c8_autoclose_threshold (now : Int) (H : Nat) (e : Int) (ch : Channel)
    (hH : 0 < H) (he : 0 < e) (hn : hasTicketPre ch.name = true) :
    autoCloseDecision H now ch (some (now - (H : Int) * 3600 - e)) = true
    ∧ autoCloseDecision H now ch (some (now - (H : Int) * 3600 + e)) = false := by
  constructor <;> simp [autoCloseDecision, hH, hn] <;> omega

def ch8w : Channel := Channel.mk ("ticket-alice").data none

/-- C8 witness: the threshold behaviour one second on each side of the cutoff
for a one-hour limit. -/
theorem c8_autoclose_threshold_witness :
    autoCloseDecision 1 0 ch8w (some (0 - ((1 : Nat) : Int) * 3600 - 1)) = true
    ∧ autoCloseDecision 1 0 ch8w (some (0 - ((1 : Nat) : Int) * 3600 + 1)) = false :=
  c8_autoclose_threshold 0 1 1 ch8w (by decide) (by decide) (by decide)

def ch9cex : Channel :=
  Channel.mk ("general").data (some ("Ticket for bob (ID: 5) | Issue: x").data)

/-- C9 counterexample: a renamed channel satisfies isTicketChannel through its
topic alone, yet the sweep's filter (name prefix only) skips it. -/
theorem c9_sweep_coverage_cex :
    isTicketChannel ch9cex = true ∧ sweepTargets [ch9cex] = [] := by decide

/-- C9 amended: on each sweep exactly the channels whose name carries the
"ticket-" prefix are examined (every such channel is a ticket channel, but a
channel satisfying isTicketChannel only via its topic is not examined). -/
theorem c9_sweep_coverage_amended :
    (∀ (chs : List Channel) (ch : Channel),
        ch ∈ sweepTargets chs ↔ ch ∈ chs ∧ hasTicketPre ch.name = true)
    ∧ (∀ ch : Channel, hasTicketPre ch.name = true → isTicketChannel ch = true) := by
  constructor
  · intro chs ch
    simp [sweepTargets, List.mem_filter]
  · intro ch h
    simp [isTicketChannel, h]

def ch9w : Channel := Channel.mk ("ticket-bob").data none

/-- C9 amended witness: the filter characterisation and the inclusion at a
concrete ticket-named channel. -/
theorem c9_sweep_coverage_amended_witness :
    (ch9w ∈ sweepTargets [ch9w] ↔ ch9w ∈ [ch9w] ∧ hasTicketPre ch9w.name = true)
    ∧ isTicketChannel ch9w = true :=
  ⟨c9_sweep_coverage_amended.1 [ch9w] ch9w, c9_sweep_coverage_amended.2 ch9w (by decide)⟩

/- ### Channel-name allocation (C4)

From creation (main.py:166-173, ticket_bot.py:145-152):
`base = f"ticket-{member.name.lower().replace(' ', '-')}"`, then the while loop
probes base, base-2, base-3, ... until no existing channel carries the name. -/

/-- `member.name.lower().replace(" ", "-")`. -/
def pySafeName (name : List Char) : List Char :=
  (name.map Char.toLower).map (fun c => if c = ' ' then '-' else c)

def ticketBase (memberName : List Char) : List Char :=
  ("ticket-").data ++ pySafeName memberName

/-- The k-th name probed by the collision loop: the base itself first, then
`f"{base}-{counter}"` for counter = 2, 3, ... -/
def probeName (base : List Char) (c : Nat) : List Char :=
  if c ≤ 1 then base else base ++ ("-").data ++ natDigits c

/-- The while loop, with explicit fuel (the loop always terminates because the
probe names are pairwise distinct and the existing-name set is finite). -/
def allocGo (names : List (List Char)) (base : List Char) : Nat → Nat → List Char
  | 0, counter => probeName base counter
  | fuel + 1, counter =>
      if probeName base counter ∈ names then allocGo names base fuel (counter + 1)
      else probeName base counter

def allocateChannelName (names : List (List Char)) (base : List Char) : List Char :=
  allocGo names base (names.length + 1) 1

theorem probeName_inj (base : List Char) {c c' : Nat} (hc : 1 ≤ c) (hc' : 1 ≤ c')
    (h : probeName base c = probeName base c') : c = c' := by
  rw [probeName, probeName] at h
  by_cases h1 : c ≤ 1 <;> by_cases h2 : c' ≤ 1
  · omega
  · simp only [h1, if_true, h2, if_false] at h
    have hlen := congrArg List.length h
    simp [List.length_append] at hlen
  · simp only [h1, if_false, h2, if_true] at h
    have hlen := congrArg List.length h
    simp [List.length_append] at hlen
  · simp only [h1, if_false, h2, if_false] at h
    have := natDigits_inj (List.append_cancel_left h)
    omega

theorem probes_le_length (names : List (List Char)) (base : List Char) (K : Nat)
    (hall : ∀ k, k < K → probeName base (1 + k) ∈ names) : K ≤ names.length := by
  have hinj : Function.Injective (fun k => probeName base (1 + k)) := by
    intro a b hab
    have := probeName_inj base (by omega) (by omega) hab
    omega
  have hnd : ((List.range K).map (fun k => probeName base (1 + k))).Nodup :=
    List.Nodup.map hinj (List.nodup_range K)
  have hsub : ((List.range K).map (fun k => probeName base (1 + k))) ⊆ names := by
    intro x hx
    rcases List.mem_map.mp hx with ⟨k, hk, rfl⟩
    exact hall k (List.mem_range.mp hk)
  have := (List.Nodup.subperm hnd hsub).length_le
  simpa using this

theorem allocGo_eq (names : List (List Char)) (base : List Char) :
    ∀ (fuel counter k : Nat), k < fuel →
      probeName base (counter + k) ∉ names →
      (∀ j, j < k → probeName base (counter + j) ∈ names) →
      allocGo names base fuel counter = probeName base (counter + k) := by
  intro fuel
  induction fuel with
  | zero => intro counter k hk; omega
  | succ f ih =>
      intro counter k hk hfree htaken
      cases k with
      | zero =>
          have h0 : probeName base counter ∉ names := by simpa using hfree
          simp [allocGo, h0]
      | succ k' =>
          have h0 : probeName base counter ∈ names := by
            have := htaken 0 (by omega)
            simpa using this
          rw [allocGo]
          simp only [h0, if_true]
          rw [show counter + (k' + 1) = (counter + 1) + k' by omega]
          apply ih (counter + 1) k' (by omega)
          · rw [show (counter + 1) + k' = counter + (k' + 1) by omega]
            exact hfree
          · intro j hj
            rw [show (counter + 1) + j = counter + (j + 1) by omega]
            exact htaken (j + 1) (by omega)

/-- C4: the allocated channel name never collides with an existing channel name;
and when the first N probe names (the base and base-2 … base-N) are all taken
while base-(N+1) is free — N ≥ 1 pre-existing collisions — the allocator
returns base-(N+1). -/
theorem c4_alloc_channel_name :
    (∀ (names : List (List Char)) (base : List Char),
        allocateChannelName names base ∉ names)
    ∧ (∀ (names : List (List Char)) (base : List Char) (N : Nat),
        1 ≤ N →
        (∀ c, c ≤ N → 1 ≤ c → probeName base c ∈ names) →
        probeName base (N + 1) ∉ names →
        allocateChannelName names base = probeName base (N + 1)) := by
  constructor
  · intro names base
    by_cases hex : ∃ k, probeName base (1 + k) ∉ names
    · have hfree : probeName base (1 + Nat.find hex) ∉ names := Nat.find_spec hex
      have htaken : ∀ j, j < Nat.find hex → probeName base (1 + j) ∈ names := by
        intro j hj
        have h2 := Nat.find_min hex hj
        exact not_not.mp h2
      have hk0 : Nat.find hex < names.length + 1 := by
        by_contra hc
        push_neg at hc
        have hle := probes_le_length names base (names.length + 1)
          (fun k hk => htaken k (by omega))
        omega
      rw [allocateChannelName,
        allocGo_eq names base (names.length + 1) 1 (Nat.find hex) hk0 hfree htaken]
      exact hfree
    · push_neg at hex
      exfalso
      have hle := probes_le_length names base (names.length + 1) (fun k _ => hex k)
      omega
  · intro names base N hN htaken hfree
    have hlen : N ≤ names.length :=
      probes_le_length names base N (fun k hk => htaken (1 + k) (by omega) (by omega))
    rw [allocateChannelName,
      allocGo_eq names base (names.length + 1) 1 N (by omega)
        (by rw [show 1 + N = N + 1 by omega]; exact hfree)
        (fun j hj => htaken (1 + j) (by omega) (by omega)),
      show 1 + N = N + 1 by omega]

def bobNames : List (List Char) := [("ticket-bob").data]

/-- C4 witness: with only `ticket-bob` existing, a new ticket for bob gets the
name `ticket-bob-2`. -/
theorem c4_alloc_channel_name_witness :
    allocateChannelName bobNames (ticketBase ("bob").data)
      = probeName (ticketBase ("bob").data) 2
    ∧ probeName (ticketBase ("bob").data) 2 = ("ticket-bob-2").data := by
  constructor
  · exact c4_alloc_channel_name.2 bobNames (ticketBase ("bob").data) 1 (by decide)
      (by
        intro c h1 h2
        have hc : c = 1 := by omega
        subst hc
        decide)
      (by decide)
  · decide

/- ### Ticket creation and the one-ticket-per-user invariant (C1)

handle_ticket_button (main.py:150-254, ticket_bot.py:129-228): the guard scans
`guild.text_channels` for a channel whose topic contains `str(member.id)` and,
if found, rejects with the existing-channel reference and no state change;
otherwise it allocates a fresh name and creates the channel with the encoded
topic.  `member.name` and the `str(member)` rendering are both modelled by the
single `name` field. -/

structure Member where
  name : List Char
  id : Nat
  deriving DecidableEq

inductive CreateResult where
  | duplicate (ch : Channel)
  | created (ch : Channel)
  deriving DecidableEq

/-- The state-relevant behaviour of handle_ticket_button on the guild's channel
list: the duplicate guard, then name allocation and channel creation. -/
def createTicket (st : List Channel) (m : Member) (issue : List Char) :
    CreateResult × List Channel :=
  match st.find? (fun ch => topicContains ch.topic (natDigits m.id)) with
  | some ch => (CreateResult.duplicate ch, st)
  | none =>
      let nm := allocateChannelName (st.map (fun ch => ch.name)) (ticketBase m.name)
      let ch := Channel.mk nm (some (encodeTopic m.name m.id issue))
      (CreateResult.created ch, st ++ [ch])

/-- Requests arriving at the bot: a button press (create) or a close that
deletes a channel. -/
inductive ReqEvent where
  | createE (m : Member) (issue : List Char)
  | closeE (ch : Channel)
  deriving DecidableEq

def stepEvent (st : List Channel) : ReqEvent → List Channel
  | ReqEvent.createE m issue => (createTicket st m issue).2
  | ReqEvent.closeE ch => st.erase ch

/-- The guild channel list after the first n requests. -/
def stateAt (st0 : List Channel) (events : List ReqEvent) (n : Nat) : List Channel :=
  (events.take n).foldl stepEvent st0

theorem stateAt_succ (st0 : List Channel) (events : List ReqEvent) (n : Nat)
    (hn : n < events.length) :
    stateAt st0 events (n + 1) = stepEvent (stateAt st0 events n) (events.get ⟨n, hn⟩) := by
  have h1 : events.take (n + 1) = events.take n ++ [events.get ⟨n, hn⟩] := by
    rw [List.take_succ, List.getElem?_eq_getElem hn]
    rfl
  rw [stateAt, stateAt, h1, List.foldl_append]
  rfl

theorem tkt_persists (st0 : List Channel) (events : List ReqEvent) (tkt : Channel)
    (hmem : tkt ∈ st0)
    (hnoclose : ∀ ch, ReqEvent.closeE ch ∈ events → ch ≠ tkt) :
    ∀ n, tkt ∈ stateAt st0 events n := by
  intro n
  induction n with
  | zero => simpa [stateAt] using hmem
  | succ k ih =>
      by_cases hk : k < events.length
      · rw [stateAt_succ st0 events k hk]
        cases hev : events.get ⟨k, hk⟩ with
        | createE m issue =>
            rw [stepEvent, createTicket]
            cases hf : (stateAt st0 events k).find?
                (fun ch => topicContains ch.topic (natDigits m.id)) with
            | some ch => simpa [hf] using ih
            | none =>
                simp only [hf]
                exact List.mem_append_left _ ih
        | closeE ch =>
            have hin : ReqEvent.closeE ch ∈ events := by
              rw [← hev]
              exact List.get_mem events k hk
            have hne : ch ≠ tkt := hnoclose ch hin
            rw [stepEvent]
            exact (List.mem_erase_of_ne hne.symm).mpr ih
      · have hsame : stateAt st0 events (k + 1) = stateAt st0 events k := by
          rw [stateAt, stateAt, List.take_of_length_le (by omega),
            List.take_of_length_le (by omega)]
        rw [hsame]
        exact ih

/-- C1: while user U's ticket channel is present (it was created with a topic
containing U's id, and no close request targets it), every create request by U
in the sequence is answered by the duplicate rejection — carrying a channel
whose topic contains U's id — and leaves the channel list unchanged, so no
second channel is ever created for U. -/
theorem c1_one_ticket_per_user (st0 : List Channel) (events : List ReqEvent)
    (U : Member) (tkt : Channel)
    (hmem : tkt ∈ st0)
    (htop : topicContains tkt.topic (natDigits U.id) = true)
    (hnoclose : ∀ ch, ReqEvent.closeE ch ∈ events → ch ≠ tkt) :
    ∀ (n : Nat) (hn : n < events.length) (m : Member) (issue : List Char),
      events.get ⟨n, hn⟩ = ReqEvent.createE m issue → m.id = U.id →
      ∃ chd, createTicket (stateAt st0 events n) m issue
          = (CreateResult.duplicate chd, stateAt st0 events n)
        ∧ topicContains chd.topic (natDigits U.id) = true := by
  intro n hn m issue _ hid
  have hinv := tkt_persists st0 events tkt hmem hnoclose n
  have hfind : ((stateAt st0 events n).find?
      (fun ch => topicContains ch.topic (natDigits m.id))).isSome := by
    rw [hid]
    exact List.find?_isSome.mpr ⟨tkt, hinv, htop⟩
  obtain ⟨chd, hchd⟩ := Option.isSome_iff_exists.mp hfind
  refine ⟨chd, ?_, ?_⟩
  · rw [createTicket, hchd]
  · have hp := List.find?_some hchd
    rwa [hid] at hp

def aliceMem : Member := Member.mk ("alice").data 111

def aliceTkt : Channel :=
  Channel.mk ("ticket-alice").data (some (encodeTopic ("alice").data 111 ("Hosting").data))

def c1Events : List ReqEvent := [ReqEvent.createE aliceMem ("Issues").data]

/-- C1 witness: alice, holding an open ticket, presses another button; the
request is rejected as a duplicate and the channel list is unchanged. -/
theorem c1_one_ticket_per_user_witness :
    ∃ chd, createTicket (stateAt [aliceTkt] c1Events 0) aliceMem ("Issues").data
        = (CreateResult.duplicate chd, stateAt [aliceTkt] c1Events 0)
      ∧ topicContains chd.topic (natDigits aliceMem.id) = true := by
  have h := c1_one_ticket_per_user [aliceTkt] c1Events aliceMem aliceTkt
    (by decide) (by decide)
    (by
      intro ch hch
      simp [c1Events] at hch)
  exact h 0 (by decide) aliceMem ("Issues").data rfl rfl

/- ### Close ordering (C2)

handle_close (main.py:257-345, ticket_bot.py:232-327) and the close block of
auto_close_checker (main.py:365-408), modelled as the trace of platform calls
each execution performs.  Every fallible call is given an outcome flag; a flag
only changes the trace where the code's try/except structure says it does
(best-effort failures are swallowed, guard failures return early, and a history
failure inside close degrades to the sentinel line while in auto-close it
aborts the whole per-channel attempt). -/

inductive CloseEv where
  | rejectedEv
  | respNoticeEv
  | chNoticeEv
  | sleepEv
  | captureEv (ok : Bool)
  | logEmbedEv
  | logFileEv
  | dmEv
  | deleteEv
  | failNoteEv
  deriving DecidableEq

structure CloseEnv where
  hasChannel : Bool
  channel : Channel
  closerIsAdmin : Bool
  respNoticeOk : Bool
  chNoticeOk : Bool
  histOk : Bool
  hasLogChannel : Bool
  logEmbedOk : Bool
  deleteOk : Bool
  deriving DecidableEq

structure AutoEnv where
  channel : Channel
  noticeOk : Bool
  histOk : Bool
  hasLogChannel : Bool
  logEmbedOk : Bool
  deriving DecidableEq

/-- The countdown notice: the response send, falling back to a channel send. -/
def noticePart (respOk : Bool) : List CloseEv :=
  if respOk then [CloseEv.respNoticeEv] else [CloseEv.respNoticeEv, CloseEv.chNoticeEv]

/-- The log-channel delivery: embed, then (only if the embed send succeeded) the
transcript file, both inside one swallowed try. -/
def logPart (hasLog embedOk : Bool) : List CloseEv :=
  if hasLog then
    if embedOk then [CloseEv.logEmbedEv, CloseEv.logFileEv] else [CloseEv.logEmbedEv]
  else []

/-- The owner DM attempt, made only when the topic yields an owner id. -/
def dmPart (owner : Option Nat) : List CloseEv :=
  match owner with
  | some _ => [CloseEv.dmEv]
  | none => []

/-- The deletion attempt, followed by the failure note when it raises. -/
def deletePart (ok : Bool) : List CloseEv :=
  if ok then [CloseEv.deleteEv] else [CloseEv.deleteEv, CloseEv.failNoteEv]

/-- The full trace of handle_close. -/
def closeTrace (e : CloseEnv) : List CloseEv :=
  if e.hasChannel = false then [CloseEv.rejectedEv]
  else if isTicketChannel e.channel = false then [CloseEv.rejectedEv]
  else if e.closerIsAdmin = false then [CloseEv.rejectedEv]
  else
    (noticePart e.respNoticeOk ++ [CloseEv.sleepEv])
      ++ CloseEv.captureEv e.histOk
        :: (logPart e.hasLogChannel e.logEmbedOk
            ++ dmPart (pyExtractOwnerId e.channel.topic)
            ++ deletePart e.deleteOk)

/-- The full trace of one auto-close attempt (everything inside one outer try:
a notice or history failure aborts before deletion; log and DM failures are
swallowed by inner trys; a deletion failure is caught by the outer except). -/
def autoTrace (e : AutoEnv) : List CloseEv :=
  CloseEv.chNoticeEv ::
    (if e.noticeOk then
      CloseEv.sleepEv ::
        (if e.histOk then
          CloseEv.captureEv true
            :: (logPart e.hasLogChannel e.logEmbedOk
                ++ dmPart (pyExtractOwnerId e.channel.topic)
                ++ [CloseEv.deleteEv])
        else [])
    else [])

theorem mem_pre_of_eq_append_cons {α : Type} (x y : α) :
    ∀ (A B pre suf : List α), x ∉ A → x ≠ y →
      A ++ y :: B = pre ++ x :: suf → y ∈ pre := by
  intro A
  induction A with
  | nil =>
      intro B pre suf _ hxy h
      cases pre with
      | nil =>
          rw [List.nil_append, List.nil_append] at h
          have h1 : y = x := (List.cons_eq_cons.mp h).1
          exact absurd h1.symm hxy
      | cons q pre' =>
          rw [List.nil_append, List.cons_append] at h
          have h1 : y = q := (List.cons_eq_cons.mp h).1
          rw [h1]
          exact List.mem_cons_self q pre'
  | cons a A' ih =>
      intro B pre suf hx hxy h
      cases pre with
      | nil =>
          rw [List.cons_append, List.nil_append] at h
          have h1 : a = x := (List.cons_eq_cons.mp h).1
          exact absurd (h1 ▸ List.mem_cons_self a A') hx
      | cons q pre' =>
          rw [List.cons_append, List.cons_append] at h
          obtain ⟨h1, h2⟩ := List.cons_eq_cons.mp h
          have := ih B pre' suf (fun hc => hx (List.mem_cons_of_mem a hc)) hxy h2
          exact List.mem_cons_of_mem q this

theorem no_delete_of_not_mem (l pre suf : List CloseEv)
    (hn : CloseEv.deleteEv ∉ l) (h : l = pre ++ CloseEv.deleteEv :: suf) : False := by
  apply hn
  rw [h]
  simp

/-- C2: in every execution of close and of auto-close, whenever channel deletion
is attempted, the transcript capture (full lines, or the degraded failure
sentinel) has already completed earlier in the trace — for every combination of
guard outcomes and best-effort delivery failures. -/
theorem c2_close_ordering :
    (∀ (e : CloseEnv) (pre suf : List CloseEv),
        closeTrace e = pre ++ CloseEv.deleteEv :: suf →
        ∃ b, CloseEv.captureEv b ∈ pre)
    ∧ (∀ (e : AutoEnv) (pre suf : List CloseEv),
        autoTrace e = pre ++ CloseEv.deleteEv :: suf →
        ∃ b, CloseEv.captureEv b ∈ pre) := by
  constructor
  · intro e pre suf h
    rw [closeTrace] at h
    by_cases h1 : e.hasChannel = false
    · rw [if_pos h1] at h
      exact absurd h (fun hc => no_delete_of_not_mem _ _ _ (by decide) hc)
    rw [if_neg h1] at h
    by_cases h2 : isTicketChannel e.channel = false
    · rw [if_pos h2] at h
      exact absurd h (fun hc => no_delete_of_not_mem _ _ _ (by decide) hc)
    rw [if_neg h2] at h
    by_cases h3 : e.closerIsAdmin = false
    · rw [if_pos h3] at h
      exact absurd h (fun hc => no_delete_of_not_mem _ _ _ (by decide) hc)
    rw [if_neg h3] at h
    refine ⟨e.histOk, ?_⟩
    apply mem_pre_of_eq_append_cons CloseEv.deleteEv (CloseEv.captureEv e.histOk)
      (noticePart e.respNoticeOk ++ [CloseEv.sleepEv]) _ pre suf ?_ (by simp) h
    intro hc
    rcases List.mem_append.mp hc with hc | hc
    · rw [noticePart] at hc
      by_cases hr : e.respNoticeOk = true
      · rw [if_pos hr] at hc
        simp at hc
      · rw [if_neg hr] at hc
        simp at hc
    · simp at hc
  · intro e pre suf h
    rw [autoTrace] at h
    by_cases hn : e.noticeOk = true
    · rw [if_pos hn] at h
      by_cases hh : e.histOk = true
      · rw [if_pos hh] at h
        refine ⟨true, ?_⟩
        apply mem_pre_of_eq_append_cons CloseEv.deleteEv (CloseEv.captureEv true)
          [CloseEv.chNoticeEv, CloseEv.sleepEv] _ pre suf (by decide) (by simp) h
      · rw [if_neg hh] at h
        exact absurd h (fun hc => no_delete_of_not_mem _ _ _ (by decide) hc)
    · rw [if_neg hn] at h
      exact absurd h (fun hc => no_delete_of_not_mem _ _ _ (by decide) hc)

def env2w : CloseEnv :=
  CloseEnv.mk true (Channel.mk ("ticket-alice").data none) true true true true false true true

/-- C2 witness: a concrete close run whose trace attempts deletion, with the
capture event in the preceding prefix. -/
theorem c2_close_ordering_witness :
    ∃ b, CloseEv.captureEv b
        ∈ [CloseEv.respNoticeEv, CloseEv.sleepEv, CloseEv.captureEv true] :=
  c2_close_ordering.1 env2w
    [CloseEv.respNoticeEv, CloseEv.sleepEv, CloseEv.captureEv true] [] (by decide)

/- ### Settings load and default backfill (C10)

load_config (main.py:67-81): when the file is missing it is written with the
full defaults and a copy is returned; otherwise the parsed document gets every
missing key set from DEFAULT_CONFIG — in the returned dict only, the file is
not rewritten.  The JSON object is modelled as an insertion-ordered
association list. -/

inductive CfgVal where
  | nullV
  | strV (s : List Char)
  | natV (n : Nat)
  | listV (xs : List (List Char))
  deriving DecidableEq

/-- Key lookup in the configuration document (`k in cfg` / `cfg[k]`). -/
def lookupC (k : List Char) : List (List Char × CfgVal) → Option CfgVal
  | [] => none
  | kv :: rest => if kv.1 = k then some kv.2 else lookupC k rest

/-- DEFAULT_CONFIG of main.py. -/
def defaultConfig : List (List Char × CfgVal) :=
  [ (("title").data, CfgVal.strV ("Maxy Does Tickets – Support System").data),
    (("description").data, CfgVal.strV
      ("Need help? Open a ticket by clicking a button below!\nOur staff will assist you as soon as possible.").data),
    (("image").data, CfgVal.nullV),
    (("buttons").data, CfgVal.listV
      [("Hosting").data, ("Issues").data, ("Suspension").data, ("Other").data]),
    (("category_id").data, CfgVal.nullV),
    (("panel_message_id").data, CfgVal.nullV),
    (("panel_channel_id").data, CfgVal.nullV),
    (("creation_text").data, CfgVal.strV
      ("please wait until one of our staffs assist u.").data),
    (("notify_role_id").data, CfgVal.nullV),
    (("log_channel_id").data, CfgVal.nullV),
    (("autoclose_hours").data, CfgVal.natV 0) ]

/-- The backfill loop `for k, v in DEFAULT_CONFIG.items(): if k not in cfg:
cfg[k] = v` (a dict assignment of a fresh key appends it in insertion order). -/
def backfillFrom : List (List Char × CfgVal) → List (List Char × CfgVal) →
    List (List Char × CfgVal)
  | [], cfg => cfg
  | kv :: ds, cfg =>
      backfillFrom ds (if (lookupC kv.1 cfg).isSome then cfg else cfg ++ [kv])

/-- load_config: pair of (returned configuration, file contents afterwards). -/
def loadConfig (file : Option (List (List Char × CfgVal))) :
    List (List Char × CfgVal) × Option (List (List Char × CfgVal)) :=
  match file with
  | none => (defaultConfig, some defaultConfig)
  | some cfg => (backfillFrom defaultConfig cfg, some cfg)

theorem lookupC_append_some (k : List Char) (v : CfgVal) :
    ∀ (l l' : List (List Char × CfgVal)),
      lookupC k l = some v → lookupC k (l ++ l') = some v := by
  intro l
  induction l with
  | nil => intro l' h; simp [lookupC] at h
  | cons kv rest ih =>
      intro l' h
      rw [List.cons_append]
      by_cases hk : kv.1 = k
      · rw [lookupC, if_pos hk] at h
        rw [lookupC, if_pos hk]
        exact h
      · rw [lookupC, if_neg hk] at h
        rw [lookupC, if_neg hk]
        exact ih l' h

theorem lookupC_append_none (k : List Char) :
    ∀ (l l' : List (List Char × CfgVal)),
      lookupC k l = none → lookupC k (l ++ l') = lookupC k l' := by
  intro l
  induction l with
  | nil => intro l' _; rw [List.nil_append]
  | cons kv rest ih =>
      intro l' h
      rw [List.cons_append]
      by_cases hk : kv.1 = k
      · rw [lookupC, if_pos hk] at h
        exact absurd h (by simp)
      · rw [lookupC, if_neg hk] at h
        rw [lookupC, if_neg hk]
        exact ih l' h

theorem backfillFrom_some (k : List Char) (v : CfgVal) :
    ∀ (ds cfg : List (List Char × CfgVal)),
      lookupC k cfg = some v → lookupC k (backfillFrom ds cfg) = some v := by
  intro ds
  induction ds with
  | nil => intro cfg h; simpa [backfillFrom] using h
  | cons d ds' ih =>
      intro cfg h
      rw [backfillFrom]
      apply ih
      cases hd : (lookupC d.1 cfg).isSome with
      | true => simpa [hd] using h
      | false =>
          simp only [hd, Bool.false_eq_true, if_false]
          exact lookupC_append_some k v cfg [d] h

theorem backfillFrom_none (k : List Char) :
    ∀ (ds cfg : List (List Char × CfgVal)),
      lookupC k cfg = none → lookupC k (backfillFrom ds cfg) = lookupC k ds := by
  intro ds
  induction ds with
  | nil => intro cfg h; simpa [backfillFrom, lookupC] using h
  | cons d ds' ih =>
      intro cfg h
      rw [backfillFrom]
      by_cases hk : d.1 = k
      · have hd : (lookupC d.1 cfg).isSome = false := by
          rw [hk, h]
          rfl
        simp only [hd, Bool.false_eq_true, if_false]
        have h2 : lookupC k (cfg ++ [d]) = some d.2 := by
          rw [lookupC_append_none k cfg [d] h, lookupC, if_pos hk]
        rw [backfillFrom_some k d.2 ds' (cfg ++ [d]) h2, lookupC, if_pos hk]
      · have hstep : lookupC k ds' = lookupC k (d :: ds') := by
          rw [lookupC, if_neg hk]
        cases hd : (lookupC d.1 cfg).isSome with
        | true =>
            simp only [hd, if_true]
            rw [ih cfg h, hstep]
        | false =>
            simp only [hd, Bool.false_eq_true, if_false]
            have h2 : lookupC k (cfg ++ [d]) = none := by
              rw [lookupC_append_none k cfg [d] h, lookupC, if_neg hk]
              rfl
            rw [ih (cfg ++ [d]) h2, hstep]

def storedCex : List (List Char × CfgVal) := [(("title").data, CfgVal.strV ("custom").data)]

set_option maxHeartbeats 1000000 in
/-- C10 counterexample: loading a stored document that lacks autoclose_hours
backfills the returned configuration but writes nothing back — the file still
lacks the key after the load, so the backfilled document is not "saved back to
storage implicitly". -/
theorem c10_backfill_cex :
    lookupC ("autoclose_hours").data storedCex = none
    ∧ lookupC ("autoclose_hours").data (loadConfig (some storedCex)).1 = some (CfgVal.natV 0)
    ∧ (loadConfig (some storedCex)).2 = some storedCex := by decide

/-- C10 amended: on every load of an existing settings document, stored keys
keep their stored values and any missing key is backfilled from the hard-coded
defaults in the returned configuration only; the stored file is left unchanged
by the load (the file is written with the full defaults only on first run). -/
theorem c10_backfill_amended :
    (∀ cfg, (loadConfig (some cfg)).2 = some cfg)
    ∧ (∀ (cfg : List (List Char × CfgVal)) (k : List Char) (v : CfgVal),
        lookupC k cfg = some v → lookupC k (loadConfig (some cfg)).1 = some v)
    ∧ (∀ (cfg : List (List Char × CfgVal)) (k : List Char),
        lookupC k cfg = none →
        lookupC k (loadConfig (some cfg)).1 = lookupC k defaultConfig)
    ∧ loadConfig none = (defaultConfig, some defaultConfig) := by
  refine ⟨fun cfg => rfl, ?_, ?_, rfl⟩
  · intro cfg k v h
    simp only [loadConfig]
    exact backfillFrom_some k v defaultConfig cfg h
  · intro cfg k h
    simp only [loadConfig]
    exact backfillFrom_none k defaultConfig cfg h

set_option maxHeartbeats 1000000 in
/-- C10 amended witness: at the concrete stored document, the stored title is
preserved and the missing autoclose_hours comes from the defaults. -/
theorem c10_backfill_amended_witness :
    lookupC ("title").data (loadConfig (some storedCex)).1 = some (CfgVal.strV ("custom").data)
    ∧ lookupC ("autoclose_hours").data (loadConfig (some storedCex)).1
        = lookupC ("autoclose_hours").data defaultConfig :=
  ⟨c10_backfill_amended.2.1 storedCex (("title").data) (CfgVal.strV ("custom").data) (by decide),
   c10_backfill_amended.2.2.1 storedCex (("autoclose_hours").data) (by decide)⟩

end TicketBot
